import Mathlib

/-!
# JSLiteDB — formal model of the in-memory collection store

A shallow embedding of the JSLiteDB document store (`src/index.js`, the
`Collection` class, and the `WriteMutex` utility).  JavaScript `Map`s are
modelled as insertion-ordered association lists, JSON documents as an
inductive value type, and the file system as a map from path to parsed
file content.  All operations are modelled after lazy initialization has
completed (`_ensureInitialized` is a no-op once `isInitialized` is set),
and `Date.now()` is modelled by the ambient `now` field of the state.
JavaScript numbers are modelled as integers; none of the modelled code
paths depend on fractional or NaN arithmetic.
-/

namespace JSLiteDB

/-- JSON-representable document values. -/
inductive JsonVal where
  | str : String → JsonVal
  | num : Int → JsonVal
  | bool : Bool → JsonVal
  | null : JsonVal
  | arr : List JsonVal → JsonVal
  | obj : List (String × JsonVal) → JsonVal

/-- Decidable equality for `JsonVal` (the automatic deriving does not
handle the nesting through `List`). -/
def decEqJson : (a b : JsonVal) → Decidable (a = b)
  | .str a, .str b =>
    match decEq a b with
    | .isTrue h => .isTrue (by rw [h])
    | .isFalse h => .isFalse (by intro hh; cases hh; exact h rfl)
  | .num a, .num b =>
    match decEq a b with
    | .isTrue h => .isTrue (by rw [h])
    | .isFalse h => .isFalse (by intro hh; cases hh; exact h rfl)
  | .bool a, .bool b =>
    match decEq a b with
    | .isTrue h => .isTrue (by rw [h])
    | .isFalse h => .isFalse (by intro hh; cases hh; exact h rfl)
  | .null, .null => .isTrue rfl
  | .arr xs, .arr ys =>
    match decEqJsonList xs ys with
    | .isTrue h => .isTrue (by rw [h])
    | .isFalse h => .isFalse (by intro hh; cases hh; exact h rfl)
  | .obj xs, .obj ys =>
    match decEqJsonFields xs ys with
    | .isTrue h => .isTrue (by rw [h])
    | .isFalse h => .isFalse (by intro hh; cases hh; exact h rfl)
  | .str _, .num _ => .isFalse (by intro h; cases h)
  | .str _, .bool _ => .isFalse (by intro h; cases h)
  | .str _, .null => .isFalse (by intro h; cases h)
  | .str _, .arr _ => .isFalse (by intro h; cases h)
  | .str _, .obj _ => .isFalse (by intro h; cases h)
  | .num _, .str _ => .isFalse (by intro h; cases h)
  | .num _, .bool _ => .isFalse (by intro h; cases h)
  | .num _, .null => .isFalse (by intro h; cases h)
  | .num _, .arr _ => .isFalse (by intro h; cases h)
  | .num _, .obj _ => .isFalse (by intro h; cases h)
  | .bool _, .str _ => .isFalse (by intro h; cases h)
  | .bool _, .num _ => .isFalse (by intro h; cases h)
  | .bool _, .null => .isFalse (by intro h; cases h)
  | .bool _, .arr _ => .isFalse (by intro h; cases h)
  | .bool _, .obj _ => .isFalse (by intro h; cases h)
  | .null, .str _ => .isFalse (by intro h; cases h)
  | .null, .num _ => .isFalse (by intro h; cases h)
  | .null, .bool _ => .isFalse (by intro h; cases h)
  | .null, .arr _ => .isFalse (by intro h; cases h)
  | .null, .obj _ => .isFalse (by intro h; cases h)
  | .arr _, .str _ => .isFalse (by intro h; cases h)
  | .arr _, .num _ => .isFalse (by intro h; cases h)
  | .arr _, .bool _ => .isFalse (by intro h; cases h)
  | .arr _, .null => .isFalse (by intro h; cases h)
  | .arr _, .obj _ => .isFalse (by intro h; cases h)
  | .obj _, .str _ => .isFalse (by intro h; cases h)
  | .obj _, .num _ => .isFalse (by intro h; cases h)
  | .obj _, .bool _ => .isFalse (by intro h; cases h)
  | .obj _, .null => .isFalse (by intro h; cases h)
  | .obj _, .arr _ => .isFalse (by intro h; cases h)
where
  decEqJsonList : (a b : List JsonVal) → Decidable (a = b)
    | [], [] => .isTrue rfl
    | [], _ :: _ => .isFalse (by intro h; cases h)
    | _ :: _, [] => .isFalse (by intro h; cases h)
    | x :: xs, y :: ys =>
      match decEqJson x y, decEqJsonList xs ys with
      | .isTrue h1, .isTrue h2 => .isTrue (by rw [h1, h2])
      | .isFalse h1, _ => .isFalse (by intro hh; cases hh; exact h1 rfl)
      | _, .isFalse h2 => .isFalse (by intro hh; cases hh; exact h2 rfl)
  decEqJsonFields : (a b : List (String × JsonVal)) → Decidable (a = b)
    | [], [] => .isTrue rfl
    | [], _ :: _ => .isFalse (by intro h; cases h)
    | _ :: _, [] => .isFalse (by intro h; cases h)
    | (k, v) :: xs, (k', v') :: ys =>
      match decEq k k', decEqJson v v', decEqJsonFields xs ys with
      | .isTrue h1, .isTrue h2, .isTrue h3 => .isTrue (by rw [h1, h2, h3])
      | .isFalse h1, _, _ => .isFalse (by intro hh; cases hh; exact h1 rfl)
      | _, .isFalse h2, _ => .isFalse (by intro hh; cases hh; exact h2 rfl)
      | _, _, .isFalse h3 => .isFalse (by intro hh; cases hh; exact h3 rfl)

instance : DecidableEq JsonVal := decEqJson

/-- JavaScript truthiness on modelled values (`!v` in the source is
`jsFalsy v`): `null`, `false`, `0` and `""` are falsy; objects and arrays
are always truthy. -/
def jsFalsy : JsonVal → Bool
  | .null => true
  | .bool b => !b
  | .num n => n == 0
  | .str s => s == ""
  | .arr _ => false
  | .obj _ => false

/-- A document ID as accepted by the public API: the caller's string or
number (`string | number` in the source). -/
inductive DbId where
  | str : String → DbId
  | num : Int → DbId
deriving DecidableEq

/-- `String(id)` — the string coercion the source applies before using an
ID as a map key (a template-literal interpolation produces the same). -/
def DbId.toKey : DbId → String
  | .str s => s
  | .num n => toString n

/-- The ID as a JSON value, as it appears in a returned `{id, ...doc}`. -/
def DbId.toVal : DbId → JsonVal
  | .str s => .str s
  | .num n => .num n

/-! ## JavaScript `Map` and object primitives

A JS `Map` is an insertion-ordered collection of unique keys.  We model
it as an association list: `set` updates an existing key in place
(keeping its position, as `Map.prototype.set` does) or appends a new
binding; `delete` removes the binding; iteration is list order. -/

/-- `map.get(k)` (`undefined` becomes `none`). -/
def jsMapGet : List (String × α) → String → Option α
  | [], _ => none
  | (k', v) :: rest, k => if k' = k then some v else jsMapGet rest k

/-- `map.has(k)`. -/
def jsMapHas (m : List (String × α)) (k : String) : Bool :=
  (jsMapGet m k).isSome

/-- `map.set(k, v)`: replace in place if present, else append. -/
def jsMapSet : List (String × α) → String → α → List (String × α)
  | [], k, v => [(k, v)]
  | (k', v') :: rest, k, v =>
    if k' = k then (k, v) :: rest else (k', v') :: jsMapSet rest k v

/-- `map.delete(k)` (also used for `fs.unlink`, whose `ENOENT` is
swallowed by the source's `try`/`catch`). -/
def jsMapDelete : List (String × α) → String → List (String × α)
  | [], _ => []
  | (k', v') :: rest, k =>
    if k' = k then rest else (k', v') :: jsMapDelete rest k

/-- `Array.from(map.keys())`. -/
def mapKeys (m : List (String × α)) : List String := m.map Prod.fst

/-- Indexed own properties, as string-keyed entries (how `Object.entries`
and spread treat arrays and strings). -/
def indexedEntries (vs : List JsonVal) : List (String × JsonVal) :=
  ((List.range vs.length).zip vs).map (fun p => (toString p.1, p.2))

/-- `Object.entries(v)` / the own enumerable string-keyed properties used
by object spread: an object's fields in property order; arrays and
strings expose their indexed elements; primitives have none. -/
def jsObjEntries : JsonVal → List (String × JsonVal)
  | .obj fs => fs
  | .arr vs => indexedEntries vs
  | .str s => indexedEntries (s.toList.map (fun c => .str (String.singleton c)))
  | _ => []

/-- Property access `v.k` (`undefined` becomes `none`). -/
def jsGetField : JsonVal → String → Option JsonVal
  | .obj fs, k => jsMapGet fs k
  | _, _ => none

/-- Truthiness of `v.k` (missing fields are falsy `undefined`). -/
def jsTruthyField (v : JsonVal) (k : String) : Bool :=
  match jsGetField v k with
  | none => false
  | some w => !jsFalsy w

/-- `{id: id, ...doc}`: start from an object with the single `id`
property and spread `doc`'s own enumerable properties over it (a repeated
key overwrites the value but keeps its first position, as JS object
literal evaluation does). -/
def withId (id : DbId) (doc : JsonVal) : JsonVal :=
  .obj ((jsObjEntries doc).foldl (fun acc kv => jsMapSet acc kv.1 kv.2) [("id", id.toVal)])

/-! ## Store state -/

/-- Errors surfaced by the modelled operations: `ConflictError`
(duplicate ID on insert, thrown as `Error('... already exists ...')`) and
`IOError` (a failed file read/write or unparseable JSON). -/
inductive DbError where
  | conflict : DbError
  | ioError : DbError
deriving DecidableEq

/-- Parsed content of a file on disk: a JSON document, or bytes that
`JSON.parse` rejects. -/
inductive FileData where
  | json : JsonVal → FileData
  | corrupt : FileData
deriving DecidableEq

/-- The state of one `JSLiteDB` instance after initialization, plus the
file system it talks to.

* `collectionData` — `Map<collection, Map<id, document>>`
* `collectionFiles` — `Map<collection, filepath>`
* `cache` — key `"collection:id"` → document
* `disk` — path → file content
* `maxMemoryItems`, `folderPath` — configuration; `now` models `Date.now()`. -/
structure DBState where
  folderPath : String
  maxMemoryItems : Nat
  now : Int
  collectionData : List (String × List (String × JsonVal))
  collectionFiles : List (String × String)
  cache : List (String × JsonVal)
  disk : List (String × FileData)
deriving DecidableEq

/-- Structural well-formedness that real JS `Map`s (and a real file
system) guarantee: no duplicate keys at any level. -/
abbrev WFState (s : DBState) : Prop :=
  (mapKeys s.collectionData).Nodup ∧
  (∀ kv ∈ s.collectionData, (mapKeys kv.2).Nodup) ∧
  (mapKeys s.cache).Nodup ∧
  (mapKeys s.collectionFiles).Nodup ∧
  (mapKeys s.disk).Nodup

/-- `_getCollectionFilePath(name)` = `path.join(folderPath, name + ".json")`. -/
def filePathOf (s : DBState) (name : String) : String :=
  s.folderPath ++ "/" ++ name ++ ".json"

/-- `this.indexFilePath` = `path.join(folderPath, ".index.json")`. -/
def indexFilePath (s : DBState) : String :=
  s.folderPath ++ "/.index.json"

/-- `fs.writeFile(path, ...)`: full-file replace. -/
def fsWrite (s : DBState) (path : String) (d : FileData) : DBState :=
  { s with disk := jsMapSet s.disk path d }

/-- `fs.unlink(path)` with the source's `ENOENT`-swallowing `catch`. -/
def fsUnlink (s : DBState) (path : String) : DBState :=
  { s with disk := jsMapDelete s.disk path }

/-- Serialized collection file: a flat `id → document` object. -/
def collJson (entries : List (String × JsonVal)) : FileData :=
  .json (.obj entries)

/-- Serialized manifest (`.index.json`): `{version: 2, timestamp, collections}`. -/
def manifestJson (now : Int) (names : List String) : FileData :=
  .json (.obj [("version", .num 2), ("timestamp", .num now),
               ("collections", .arr (names.map .str))])

/-- `_saveCollection(name)`: if the collection is in memory, rewrite its
file in full and record the file path. -/
def saveCollection (name : String) (s : DBState) : DBState :=
  match jsMapGet s.collectionData name with
  | none => s
  | some m =>
    let path := filePathOf s name
    let s1 := fsWrite s path (collJson m)
    { s1 with collectionFiles := jsMapSet s1.collectionFiles name path }

/-- `_saveCollectionIndex()`: rewrite the manifest from the keys of
`collectionFiles`. -/
def saveCollectionIndex (s : DBState) : DBState :=
  fsWrite s (indexFilePath s) (manifestJson s.now (mapKeys s.collectionFiles))

/-- `_loadCollection(name)`: read and parse the collection file; on
`ENOENT` register a fresh empty map (and no file path); a parse failure
propagates as an error with no state change (the `throw` happens before
any assignment). -/
def loadCollection (name : String) (s : DBState) :
    Except DbError (List (String × JsonVal) × DBState) :=
  let path := filePathOf s name
  match jsMapGet s.disk path with
  | none =>
    .ok ([], { s with collectionData := jsMapSet s.collectionData name [] })
  | some .corrupt => .error .ioError
  | some (.json v) =>
    let m := jsObjEntries v
    .ok (m, { s with collectionData := jsMapSet s.collectionData name m,
                     collectionFiles := jsMapSet s.collectionFiles name path })

/-- `_addToCache(key, value)`: at capacity, evict the single
oldest-inserted entry, then set (insertion-order FIFO, no TTL). -/
def addToCache (s : DBState) (key : String) (v : JsonVal) : DBState :=
  let c :=
    if s.maxMemoryItems ≤ s.cache.length then
      match s.cache with
      | [] => s.cache
      | (k, _) :: _ => jsMapDelete s.cache k
    else s.cache
  { s with cache := jsMapSet c key v }

/-- `collectionData.get(name)` or, when absent, `_loadCollection(name)` —
the shared preamble of `insert` and `update`. -/
def getOrLoad (name : String) (s : DBState) :
    Except DbError (List (String × JsonVal) × DBState) :=
  match jsMapGet s.collectionData name with
  | some m => .ok (m, s)
  | none => loadCollection name s

/-! ## Collection operations (the `Collection` class) -/

namespace Collection

/-- `Collection.insert(id, document)` (explicit-ID form; the auto-ID form
generates a string ID and then runs the same path).  Runs under the write
mutex; the modelled state transition is its body. -/
def insert (name : String) (id : DbId) (doc : JsonVal) (s : DBState) :
    Except DbError JsonVal × DBState :=
  match getOrLoad name s with
  | .error e => (.error e, s)
  | .ok (collectionData, s1) =>
    let stringId := id.toKey
    if jsMapHas collectionData stringId then
      (.error .conflict, s1)
    else
      let collectionData' := jsMapSet collectionData stringId doc
      let s2 := { s1 with collectionData := jsMapSet s1.collectionData name collectionData' }
      let s3 := addToCache s2 (name ++ ":" ++ stringId) doc
      let s4 := saveCollectionIndex (saveCollection name s3)
      (.ok (withId id doc), s4)

/-- `Collection.update(id, document)`: upsert with no uniqueness check;
returns the document as passed (no ID attached). -/
def update (name : String) (id : DbId) (doc : JsonVal) (s : DBState) :
    Except DbError JsonVal × DBState :=
  match getOrLoad name s with
  | .error e => (.error e, s)
  | .ok (collectionData, s1) =>
    let stringId := id.toKey
    let collectionData' := jsMapSet collectionData stringId doc
    let s2 := { s1 with collectionData := jsMapSet s1.collectionData name collectionData' }
    let s3 := addToCache s2 (name ++ ":" ++ stringId) doc
    let s4 := saveCollectionIndex (saveCollection name s3)
    (.ok doc, s4)

/-- `Collection.findById(id)`: cache hit first; else in-memory lookup,
populating the cache on a hit.  `if (!document) return null` conflates a
missing binding with a stored falsy value. -/
def findById (name : String) (id : DbId) (s : DBState) :
    Option JsonVal × DBState :=
  let cacheKey := name ++ ":" ++ id.toKey
  match jsMapGet s.cache cacheKey with
  | some v => (some v, s)
  | none =>
    match jsMapGet s.collectionData name with
    | none => (none, s)
    | some m =>
      match jsMapGet m id.toKey with
      | none => (none, s)
      | some doc =>
        if jsFalsy doc then (none, s)
        else (some doc, addToCache s cacheKey doc)

/-- Options of `Collection.find`: `{filter?, limit?, skip?}` with
`skip = 0` by default (`none` models an absent/`undefined` field). -/
structure FindOptions where
  filter : Option (JsonVal → String → Bool)
  limit : Option Int
  skip : Int

/-- The options object `{}` (all fields absent, `skip` defaulted). -/
def noOptions : FindOptions := ⟨none, none, 0⟩

/-- `limit && ...`: a present, non-zero limit is truthy. -/
def jsTruthyLimit : Option Int → Bool
  | none => false
  | some n => n != 0

/-- The body of `find`'s `for (const [id, document] of collectionData)`
loop, with the mutable `skipped` counter and `results.length` made
explicit.  Per iteration: raw-entry skip first, then the truthy-limit
break, then the filter and push. -/
def findLoop (filter : Option (JsonVal → String → Bool)) (limit : Option Int)
    (skip : Int) : List (String × JsonVal) → Int → Int → List JsonVal
  | [], _, _ => []
  | (id, doc) :: rest, skipped, resLen =>
    if skipped < skip then
      findLoop filter limit skip rest (skipped + 1) resLen
    else if jsTruthyLimit limit && limit.getD 0 ≤ resLen then
      []
    else if (filter.map (fun f => f doc id)).getD true then
      withId (.str id) doc :: findLoop filter limit skip rest skipped (resLen + 1)
    else
      findLoop filter limit skip rest skipped resLen

/-- `Collection.find(options)`: iterate the in-memory map in insertion
order.  Read-only — the state is returned untouched. -/
def find (name : String) (opts : FindOptions) (s : DBState) :
    List JsonVal × DBState :=
  match jsMapGet s.collectionData name with
  | none => ([], s)
  | some m => (findLoop opts.filter opts.limit opts.skip m 0 0, s)

/-- `Collection.findOne(filter)` = `find({limit: 1, filter})` then
`results[0] || null`. -/
def findOne (name : String) (filter : Option (JsonVal → String → Bool))
    (s : DBState) : Option JsonVal × DBState :=
  let r := find name ⟨filter, some 1, 0⟩ s
  (r.1.head?.bind (fun v => if jsFalsy v then none else some v), r.2)

/-- `Collection.delete(id)`: no-op `false` when absent; else remove from
the map and the cache, persist, and — if the collection became empty —
drop it from memory, unlink its file and deregister it, before rewriting
the manifest.  Runs under the write mutex. -/
def delete (name : String) (id : DbId) (s : DBState) : Bool × DBState :=
  match jsMapGet s.collectionData name with
  | none => (false, s)
  | some m =>
    if jsMapHas m id.toKey then
      let m' := jsMapDelete m id.toKey
      let s1 := { s with collectionData := jsMapSet s.collectionData name m',
                         cache := jsMapDelete s.cache (name ++ ":" ++ id.toKey) }
      let s2 := saveCollection name s1
      let s3 :=
        if m'.length = 0 then
          let s3a := { s2 with collectionData := jsMapDelete s2.collectionData name }
          let s3b :=
            match jsMapGet s3a.collectionFiles name with
            | some fp => fsUnlink s3a fp
            | none => s3a
          { s3b with collectionFiles := jsMapDelete s3b.collectionFiles name }
        else s2
      (true, saveCollectionIndex s3)
    else (false, s)

/-- Argument of `Collection.count`: nothing, a bare filter function, or
an options object that may carry one. -/
inductive CountArg where
  | noArg : CountArg
  | fn : (JsonVal → String → Bool) → CountArg
  | opts : Option (JsonVal → String → Bool) → CountArg

/-- `Collection.count(filterOrOptions?)`.  Read-only. -/
def count (name : String) (arg : CountArg) (s : DBState) : Int × DBState :=
  match jsMapGet s.collectionData name with
  | none => (0, s)
  | some m =>
    let filter : Option (JsonVal → String → Bool) :=
      match arg with
      | .noArg => none
      | .fn f => some f
      | .opts f => f
    match filter with
    | none => ((m.length : Int), s)
    | some f => (((m.filter (fun kv => f kv.2 kv.1)).length : Int), s)

/-- `Collection.stream()`: the finite sequence the async generator
yields, in insertion order.  Read-only. -/
def stream (name : String) (s : DBState) : List JsonVal × DBState :=
  match jsMapGet s.collectionData name with
  | none => ([], s)
  | some m => (m.map (fun kv => withId (.str kv.1) kv.2), s)

end Collection

/-! ## Store-level operations -/

/-- `db.collections()`: the keys of the in-memory store. -/
def listCollectionNames (s : DBState) : List String :=
  mapKeys s.collectionData

/-- Serialized backup document:
`{version: 2, timestamp, folderBased: true, collections: {name: {id: body}}}`. -/
def backupJson (now : Int) (cols : List (String × List (String × JsonVal))) : FileData :=
  .json (.obj [("version", .num 2), ("timestamp", .num now),
               ("folderBased", .bool true),
               ("collections", .obj (cols.map (fun c => (c.1, .obj c.2))))])

/-- `db.backup(path)`: export every collection into one JSON file. -/
def backup (path : String) (s : DBState) : DBState :=
  fsWrite s path (backupJson s.now s.collectionData)

/-- `db.clear()`: unlink every collection file and the manifest, then
empty `collectionData`, `collectionFiles` and the cache. -/
def clear (s : DBState) : DBState :=
  let s1 := s.collectionFiles.foldl (fun acc kv => fsUnlink acc kv.2) s
  let s2 := fsUnlink s1 (indexFilePath s1)
  { s2 with collectionData := [], collectionFiles := [], cache := [] }

/-- The per-collection loop of `restore`'s folder-based branch: rebuild
each collection map and `_saveCollection` it.  `writeFails` injects
`fs.writeFile` failures by path; an error carries the state at the throw
(earlier writes are not undone). -/
def restoreCollections (writeFails : String → Bool) :
    List (String × JsonVal) → DBState → Except (DbError × DBState) DBState
  | [], s => .ok s
  | (name, colVal) :: rest, s =>
    let m := jsObjEntries colVal
    let s1 := { s with collectionData := jsMapSet s.collectionData name m }
    let p := filePathOf s1 name
    if writeFails p then .error (.ioError, s1)
    else
      let s2 := fsWrite s1 p (collJson m)
      restoreCollections writeFails rest
        { s2 with collectionFiles := jsMapSet s2.collectionFiles name p }

/-- `db.restore(path)`: read and parse the backup, clear the in-memory
state, rebuild it (folder-based format, or legacy flat key-value into
`_default`), persisting each collection and finally the manifest.  On any
failure the two in-memory maps are swapped back to the copies captured on
entry (`new Map(...)` — content-equal shallow copies) and the error is
rethrown; files already written, and the cleared cache, stay as they are. -/
def restore (path : String) (writeFails : String → Bool) (s : DBState) :
    Except DbError Unit × DBState :=
  let oldCollectionData := s.collectionData
  let oldCollectionFiles := s.collectionFiles
  let attempt : Except (DbError × DBState) DBState :=
    match jsMapGet s.disk path with
    | none => .error (.ioError, s)
    | some .corrupt => .error (.ioError, s)
    | some (.json v) =>
      let s1 := { s with collectionData := [], collectionFiles := [], cache := [] }
      if jsTruthyField v "folderBased" && jsTruthyField v "collections" then
        match restoreCollections writeFails
            (jsObjEntries ((jsGetField v "collections").getD .null)) s1 with
        | .error es => .error es
        | .ok s2 =>
          if writeFails (indexFilePath s2) then .error (.ioError, s2)
          else .ok (saveCollectionIndex s2)
      else
        let m := jsObjEntries v
        let s2 := { s1 with collectionData := jsMapSet s1.collectionData "_default" m }
        let p := filePathOf s2 "_default"
        if writeFails p then .error (.ioError, s2)
        else
          let s3 := fsWrite s2 p (collJson m)
          let s4 := { s3 with collectionFiles := jsMapSet s3.collectionFiles "_default" p }
          if writeFails (indexFilePath s4) then .error (.ioError, s4)
          else .ok (saveCollectionIndex s4)
  match attempt with
  | .ok sFinal => (.ok (), sFinal)
  | .error (e, sErr) =>
    (.error e, { sErr with collectionData := oldCollectionData,
                           collectionFiles := oldCollectionFiles })

/-! ## Auxiliary definitions used by the statements -/

instance {ε α : Type} [DecidableEq ε] [DecidableEq α] : DecidableEq (Except ε α)
  | .ok a, .ok b =>
    match decEq a b with
    | .isTrue h => .isTrue (by rw [h])
    | .isFalse h => .isFalse (by intro hh; cases hh; exact h rfl)
  | .error a, .error b =>
    match decEq a b with
    | .isTrue h => .isTrue (by rw [h])
    | .isFalse h => .isFalse (by intro hh; cases hh; exact h rfl)
  | .ok _, .error _ => .isFalse (fun h => Except.noConfusion h)
  | .error _, .ok _ => .isFalse (fun h => Except.noConfusion h)

namespace Collection

/-- `find`'s loop after the skip phase is over (`skipped` has reached
`skip`): only the truthy-limit break and the filter remain. -/
def findMatch (filter : Option (JsonVal → String → Bool)) (limit : Option Int) :
    List (String × JsonVal) → Int → List JsonVal
  | [], _ => []
  | (id, doc) :: rest, resLen =>
    if jsTruthyLimit limit && limit.getD 0 ≤ resLen then []
    else if (filter.map (fun f => f doc id)).getD true then
      withId (.str id) doc :: findMatch filter limit rest (resLen + 1)
    else findMatch filter limit rest resLen

/-- The spec's description of `find` (used as the claim-side of the
refinement): drop the first `skip` raw entries unconditionally, keep the
entries passing the filter, truncate to `limit` matches, and return them
as `{id, ...body}` in order. -/
def findSpec (filter : Option (JsonVal → String → Bool)) (limit : Option Int)
    (skip : Int) (m : List (String × JsonVal)) : List JsonVal :=
  let dropped := m.drop skip.toNat
  let matched := dropped.filter (fun kv => (filter.map (fun f => f kv.2 kv.1)).getD true)
  let limited :=
    match limit with
    | none => matched
    | some l => matched.take l.toNat
  limited.map (fun kv => withId (.str kv.1) kv.2)

end Collection

/-! ## The `WriteMutex` (write serializer)

`WriteMutex.acquire(fn)` awaits `_acquire()` — which resolves at once
when unlocked and otherwise pushes the continuation onto `queue` — then
runs `fn`, and in a `finally` calls `release()`, which hands the lock to
`queue.shift()` (the head, i.e. the earliest queued caller) or unlocks.
We model the protocol as a labelled transition system over caller IDs:
an `acquire i` event is caller `i` reaching `_acquire()`, a `release i`
event is caller `i`'s `finally` running (so `release i` requires that
`i` currently holds the lock — exactly the discipline `acquire(fn)`'s
`try`/`finally` enforces).  The step result also reports which caller,
if any, was granted the lock by the event. -/

namespace WriteMutex

/-- One observable event on the mutex. -/
inductive MEvent where
  | acquire : Nat → MEvent
  | release : Nat → MEvent
deriving DecidableEq

/-- `locked` and `queue` are the fields of the JS object; `holders` is
the (ghost) set of callers whose `fn` is currently executing. -/
structure MutexState where
  locked : Bool
  queue : List Nat
  holders : List Nat
deriving DecidableEq

/-- The freshly constructed mutex: unlocked, empty queue. -/
def initState : MutexState := ⟨false, [], []⟩

/-- One step.  `none` means the event is not enabled (a `release` by a
caller that does not hold the lock cannot happen under the
`acquire(fn)` protocol). -/
def step : MutexState → MEvent → Option (MutexState × Option Nat)
  | s, .acquire i =>
    if s.locked then some ({ s with queue := s.queue ++ [i] }, none)
    else some ({ s with locked := true, holders := s.holders ++ [i] }, some i)
  | s, .release i =>
    if i ∈ s.holders then
      match s.queue with
      | j :: rest =>
        some ({ locked := true, queue := rest, holders := s.holders.erase i ++ [j] }, some j)
      | [] => some ({ locked := false, queue := [], holders := s.holders.erase i }, none)
    else none

/-- Run a trace of events from a state. -/
def runTrace : MutexState → List MEvent → Option MutexState
  | s, [] => some s
  | s, e :: tr =>
    match step s e with
    | none => none
    | some (s', _) => runTrace s' tr

/-- The mutex invariant: at most one holder; when unlocked there is no
holder and no waiter; a holder exists exactly when locked. -/
abbrev Inv (s : MutexState) : Prop :=
  s.holders.length ≤ 1 ∧
  (s.locked = false → s.holders = [] ∧ s.queue = []) ∧
  (s.holders = [] → s.locked = false)

end WriteMutex

/-! ## Concrete example states used by counterexamples and witnesses -/

/-- An example document body (no `id` field of its own). -/
def exDoc (n : Int) : JsonVal := .obj [("v", .num n), ("p", .bool (n == 1 || n == 3))]

/-- A five-document collection; under the filter `p`, exactly the entries
at insertion positions 1 and 3 pass. -/
def exColl : List (String × JsonVal) :=
  [("a", exDoc 0), ("b", exDoc 1), ("c", exDoc 2), ("e", exDoc 3), ("f", exDoc 4)]

/-- The filter selecting documents whose `p` field is truthy. -/
def pFilter : JsonVal → String → Bool := fun doc _ => jsTruthyField doc "p"

/-- A consistent initialized store holding `exColl` in collection `"c"`. -/
def exState : DBState :=
  { folderPath := "data", maxMemoryItems := 10, now := 7,
    collectionData := [("c", exColl)],
    collectionFiles := [("c", "data/c.json")],
    cache := [],
    disk := [("data/c.json", collJson exColl), ("data/.index.json", manifestJson 7 ["c"])] }

/-- A one-document store (collection `"users"`, document ID `"1"`). -/
def oneState : DBState :=
  { folderPath := "d", maxMemoryItems := 10, now := 3,
    collectionData := [("users", [("1", exDoc 0)])],
    collectionFiles := [("users", "d/users.json")],
    cache := [("users:1", exDoc 0)],
    disk := [("d/users.json", collJson [("1", exDoc 0)]),
             ("d/.index.json", manifestJson 3 ["users"])] }

/-! ## Lemmas about the JS `Map` model -/

theorem jsMapGet_set_self {α : Type} (m : List (String × α)) (k : String) (v : α) :
    jsMapGet (jsMapSet m k v) k = some v := by
  induction m with
  | nil => simp [jsMapSet, jsMapGet]
  | cons hd tl ih =>
    obtain ⟨k', v'⟩ := hd
    by_cases h : k' = k
    · simp [jsMapSet, h, jsMapGet]
    · simp [jsMapSet, h, jsMapGet, ih]

theorem jsMapGet_set_ne {α : Type} (m : List (String × α)) (k k' : String) (v : α)
    (h : k ≠ k') : jsMapGet (jsMapSet m k v) k' = jsMapGet m k' := by
  induction m with
  | nil => simp [jsMapSet, jsMapGet, h]
  | cons hd tl ih =>
    obtain ⟨k₀, v₀⟩ := hd
    by_cases h0 : k₀ = k
    · subst h0; simp [jsMapSet, jsMapGet, h]
    · by_cases h1 : k₀ = k'
      · subst h1; simp [jsMapSet, h0, jsMapGet]
      · simp [jsMapSet, h0, jsMapGet, h1, ih]

theorem jsMapGet_delete_ne {α : Type} (m : List (String × α)) (k k' : String)
    (h : k ≠ k') : jsMapGet (jsMapDelete m k) k' = jsMapGet m k' := by
  induction m with
  | nil => simp [jsMapDelete]
  | cons hd tl ih =>
    obtain ⟨k₀, v₀⟩ := hd
    by_cases h0 : k₀ = k
    · subst h0; simp [jsMapDelete, jsMapGet, h]
    · by_cases h1 : k₀ = k'
      · subst h1; simp [jsMapDelete, h0, jsMapGet]
      · simp [jsMapDelete, h0, jsMapGet, h1, ih]

theorem jsMapGet_eq_none_iff {α : Type} (m : List (String × α)) (k : String) :
    jsMapGet m k = none ↔ k ∉ mapKeys m := by
  induction m with
  | nil => simp [jsMapGet, mapKeys]
  | cons hd tl ih =>
    obtain ⟨k₀, v₀⟩ := hd
    by_cases h0 : k₀ = k
    · subst h0; simp [jsMapGet, mapKeys]
    · simp [jsMapGet, h0, mapKeys, ih, Ne.symm h0]

theorem jsMapGet_delete_self {α : Type} (m : List (String × α)) (k : String)
    (hnd : (mapKeys m).Nodup) : jsMapGet (jsMapDelete m k) k = none := by
  induction m with
  | nil => simp [jsMapDelete, jsMapGet]
  | cons hd tl ih =>
    obtain ⟨k₀, v₀⟩ := hd
    simp only [mapKeys, List.map_cons, List.nodup_cons] at hnd
    by_cases h0 : k₀ = k
    · subst h0
      simp only [jsMapDelete, if_pos rfl]
      rw [jsMapGet_eq_none_iff]
      exact hnd.1
    · simp [jsMapDelete, h0, jsMapGet, ih hnd.2]

theorem mapKeys_set_of_mem {α : Type} (m : List (String × α)) (k : String) (v : α)
    (h : k ∈ mapKeys m) : mapKeys (jsMapSet m k v) = mapKeys m := by
  induction m with
  | nil => simp [mapKeys] at h
  | cons hd tl ih =>
    obtain ⟨k₀, v₀⟩ := hd
    by_cases h0 : k₀ = k
    · subst h0; simp [jsMapSet, mapKeys]
    · simp only [mapKeys, List.map_cons, List.mem_cons] at h
      rcases h with h | h
      · exact absurd h.symm h0
      · have := ih h
        simp only [jsMapSet, if_neg h0, mapKeys, List.map_cons] at this ⊢
        rw [this]

theorem mapKeys_set_of_not_mem {α : Type} (m : List (String × α)) (k : String) (v : α)
    (h : k ∉ mapKeys m) : mapKeys (jsMapSet m k v) = mapKeys m ++ [k] := by
  induction m with
  | nil => simp [jsMapSet, mapKeys]
  | cons hd tl ih =>
    obtain ⟨k₀, v₀⟩ := hd
    simp only [mapKeys, List.map_cons, List.mem_cons] at h
    push_neg at h
    by_cases h0 : k₀ = k
    · exact absurd h0.symm h.1
    · have := ih h.2
      simp only [jsMapSet, if_neg h0, mapKeys, List.map_cons] at this ⊢
      rw [this]; rfl

theorem nodup_mapKeys_set {α : Type} (m : List (String × α)) (k : String) (v : α)
    (h : (mapKeys m).Nodup) : (mapKeys (jsMapSet m k v)).Nodup := by
  by_cases hk : k ∈ mapKeys m
  · rw [mapKeys_set_of_mem m k v hk]; exact h
  · rw [mapKeys_set_of_not_mem m k v hk]
    simpa [List.nodup_append] using ⟨h, hk⟩

theorem jsMapSet_eq_append_of_not_mem {α : Type} (m : List (String × α)) (k : String)
    (v : α) (h : k ∉ mapKeys m) : jsMapSet m k v = m ++ [(k, v)] := by
  induction m with
  | nil => simp [jsMapSet]
  | cons hd tl ih =>
    obtain ⟨k₀, v₀⟩ := hd
    simp only [mapKeys, List.map_cons, List.mem_cons] at h
    push_neg at h
    simp [jsMapSet, Ne.symm h.1, ih h.2]

theorem mem_of_jsMapGet_eq_some {α : Type} (m : List (String × α)) (k : String) (v : α)
    (h : jsMapGet m k = some v) : (k, v) ∈ m := by
  induction m with
  | nil => simp [jsMapGet] at h
  | cons hd tl ih =>
    obtain ⟨k₀, v₀⟩ := hd
    by_cases h0 : k₀ = k
    · subst h0
      simp only [jsMapGet, if_true, eq_self_iff_true, Option.some.injEq] at h
      subst h; exact List.mem_cons_self _ _
    · simp only [jsMapGet, if_neg h0] at h
      exact List.mem_cons_of_mem _ (ih h)

/-! ## Projection lemmas for the state operations -/

theorem fsWrite_collectionData (s : DBState) (p : String) (d : FileData) :
    (fsWrite s p d).collectionData = s.collectionData := rfl

theorem fsWrite_collectionFiles (s : DBState) (p : String) (d : FileData) :
    (fsWrite s p d).collectionFiles = s.collectionFiles := rfl

theorem fsWrite_cache (s : DBState) (p : String) (d : FileData) :
    (fsWrite s p d).cache = s.cache := rfl

theorem fsWrite_folderPath (s : DBState) (p : String) (d : FileData) :
    (fsWrite s p d).folderPath = s.folderPath := rfl

theorem fsUnlink_collectionData (s : DBState) (p : String) :
    (fsUnlink s p).collectionData = s.collectionData := rfl

theorem fsUnlink_collectionFiles (s : DBState) (p : String) :
    (fsUnlink s p).collectionFiles = s.collectionFiles := rfl

theorem fsUnlink_cache (s : DBState) (p : String) :
    (fsUnlink s p).cache = s.cache := rfl

theorem fsUnlink_folderPath (s : DBState) (p : String) :
    (fsUnlink s p).folderPath = s.folderPath := rfl

theorem saveCollection_cache (name : String) (s : DBState) :
    (saveCollection name s).cache = s.cache := by
  unfold saveCollection
  cases jsMapGet s.collectionData name <;> simp [fsWrite]

theorem saveCollection_collectionData (name : String) (s : DBState) :
    (saveCollection name s).collectionData = s.collectionData := by
  unfold saveCollection
  cases jsMapGet s.collectionData name <;> simp [fsWrite]

theorem saveCollection_folderPath (name : String) (s : DBState) :
    (saveCollection name s).folderPath = s.folderPath := by
  unfold saveCollection
  cases jsMapGet s.collectionData name <;> simp [fsWrite]

theorem saveCollection_now (name : String) (s : DBState) :
    (saveCollection name s).now = s.now := by
  unfold saveCollection
  cases jsMapGet s.collectionData name <;> simp [fsWrite]

theorem saveCollection_collectionFiles_of_some (name : String) (s : DBState)
    (m : List (String × JsonVal)) (h : jsMapGet s.collectionData name = some m) :
    (saveCollection name s).collectionFiles
      = jsMapSet s.collectionFiles name (filePathOf s name) := by
  unfold saveCollection
  rw [h]
  rfl

theorem saveCollection_disk_of_some (name : String) (s : DBState)
    (m : List (String × JsonVal)) (h : jsMapGet s.collectionData name = some m) :
    (saveCollection name s).disk
      = jsMapSet s.disk (filePathOf s name) (collJson m) := by
  unfold saveCollection
  rw [h]
  rfl

theorem saveCollectionIndex_collectionData (s : DBState) :
    (saveCollectionIndex s).collectionData = s.collectionData := rfl

theorem saveCollectionIndex_collectionFiles (s : DBState) :
    (saveCollectionIndex s).collectionFiles = s.collectionFiles := rfl

theorem saveCollectionIndex_cache (s : DBState) :
    (saveCollectionIndex s).cache = s.cache := rfl

theorem saveCollectionIndex_folderPath (s : DBState) :
    (saveCollectionIndex s).folderPath = s.folderPath := rfl

theorem saveCollectionIndex_disk (s : DBState) :
    (saveCollectionIndex s).disk
      = jsMapSet s.disk (indexFilePath s) (manifestJson s.now (mapKeys s.collectionFiles)) :=
  rfl

theorem saveCollectionIndex_disk_get (s : DBState) (p : String) :
    jsMapGet (saveCollectionIndex s).disk p
      = if indexFilePath s = p
        then some (manifestJson s.now (mapKeys s.collectionFiles))
        else jsMapGet s.disk p := by
  rw [saveCollectionIndex_disk]
  by_cases h : indexFilePath s = p
  · subst h
    rw [if_pos rfl]
    exact jsMapGet_set_self _ _ _
  · rw [if_neg h]
    exact jsMapGet_set_ne _ _ _ _ h

theorem addToCache_collectionData (s : DBState) (k : String) (v : JsonVal) :
    (addToCache s k v).collectionData = s.collectionData := rfl

theorem addToCache_collectionFiles (s : DBState) (k : String) (v : JsonVal) :
    (addToCache s k v).collectionFiles = s.collectionFiles := rfl

theorem addToCache_disk (s : DBState) (k : String) (v : JsonVal) :
    (addToCache s k v).disk = s.disk := rfl

theorem addToCache_folderPath (s : DBState) (k : String) (v : JsonVal) :
    (addToCache s k v).folderPath = s.folderPath := rfl

theorem addToCache_get_self (s : DBState) (k : String) (v : JsonVal) :
    jsMapGet (addToCache s k v).cache k = some v := by
  unfold addToCache
  exact jsMapGet_set_self _ k v

/-! ## Lemmas about `find`'s loop -/

namespace Collection

theorem findLoop_of_skip_le (filter : Option (JsonVal → String → Bool))
    (limit : Option Int) (skip : Int) (m : List (String × JsonVal))
    (skipped res : Int) (h : skip ≤ skipped) :
    findLoop filter limit skip m skipped res = findMatch filter limit m res := by
  induction m generalizing res with
  | nil => simp [findLoop, findMatch]
  | cons hd tl ih =>
    obtain ⟨id, doc⟩ := hd
    simp only [findLoop, findMatch]
    rw [if_neg (by omega : ¬ skipped < skip)]
    split
    · rfl
    · split
      · rw [ih]
      · rw [ih]

theorem findLoop_drop (filter : Option (JsonVal → String → Bool))
    (limit : Option Int) (skip : Int) (m : List (String × JsonVal))
    (skipped res : Int) (h0 : skipped ≤ skip) :
    findLoop filter limit skip m skipped res
      = findMatch filter limit (m.drop (skip - skipped).toNat) res := by
  induction m generalizing skipped with
  | nil => simp [findLoop, findMatch]
  | cons hd tl ih =>
    obtain ⟨id, doc⟩ := hd
    by_cases hlt : skipped < skip
    · have h1 : (skip - skipped).toNat = (skip - (skipped + 1)).toNat + 1 := by omega
      simp only [findLoop]
      rw [if_pos hlt, h1, List.drop_succ_cons]
      exact ih (skipped + 1) (by omega)
    · have h1 : (skip - skipped).toNat = 0 := by omega
      rw [h1, List.drop_zero]
      exact findLoop_of_skip_le filter limit skip _ skipped res (by omega)

theorem findMatch_none (filter : Option (JsonVal → String → Bool))
    (m : List (String × JsonVal)) (res : Int) :
    findMatch filter none m res
      = (m.filter (fun kv => (filter.map (fun f => f kv.2 kv.1)).getD true)).map
          (fun kv => withId (.str kv.1) kv.2) := by
  induction m generalizing res with
  | nil => simp [findMatch]
  | cons hd tl ih =>
    obtain ⟨id, doc⟩ := hd
    simp only [findMatch, jsTruthyLimit, Bool.false_and, Bool.false_eq_true, if_false]
    by_cases hf : ((filter.map (fun f => f doc id)).getD true : Bool)
    · rw [if_pos hf]
      simp only [List.filter_cons, hf, if_true, List.map_cons]
      rw [ih]
    · rw [if_neg hf]
      simp only [List.filter_cons, hf, Bool.false_eq_true, if_false]
      rw [ih]

theorem findMatch_some (filter : Option (JsonVal → String → Bool)) (l : Int)
    (m : List (String × JsonVal)) (res : Int) (hl : l ≠ 0) (hres : 0 ≤ res) :
    findMatch filter (some l) m res
      = (((m.filter (fun kv => (filter.map (fun f => f kv.2 kv.1)).getD true)).take
          (l - res).toNat).map (fun kv => withId (.str kv.1) kv.2)) := by
  induction m generalizing res with
  | nil => simp [findMatch]
  | cons hd tl ih =>
    obtain ⟨id, doc⟩ := hd
    have hTruthy : jsTruthyLimit (some l) = true := by
      simp [jsTruthyLimit, hl]
    by_cases hbreak : l ≤ res
    · have hc : (jsTruthyLimit (some l) && decide ((some l).getD 0 ≤ res)) = true := by
        simp [hTruthy, hbreak]
      have htake : (l - res).toNat = 0 := by omega
      simp only [findMatch, hc, if_true, htake, List.take_zero, List.map_nil]
    · have hc : (jsTruthyLimit (some l) && decide ((some l).getD 0 ≤ res)) = false := by
        simp [hbreak]
      simp only [findMatch, hc, Bool.false_eq_true, if_false]
      by_cases hf : ((filter.map (fun f => f doc id)).getD true : Bool)
      · have htake : (l - res).toNat = (l - (res + 1)).toNat + 1 := by omega
        rw [if_pos hf]
        simp only [List.filter_cons, hf, if_true]
        rw [htake, List.take_succ_cons, List.map_cons, ih (res + 1) (by omega)]
      · rw [if_neg hf]
        simp only [List.filter_cons, hf, Bool.false_eq_true, if_false]
        rw [ih res hres]

theorem findLoop_limit_zero (filter : Option (JsonVal → String → Bool))
    (skip : Int) (m : List (String × JsonVal)) (skipped res : Int) :
    findLoop filter (some 0) skip m skipped res
      = findLoop filter none skip m skipped res := by
  induction m generalizing skipped res with
  | nil => simp [findLoop]
  | cons hd tl ih =>
    obtain ⟨id, doc⟩ := hd
    simp only [findLoop, jsTruthyLimit, bne_self_eq_false, Bool.false_and,
      Bool.false_eq_true, if_false]
    split
    · exact ih (skipped + 1) res
    · split
      · rw [ih]
      · rw [ih]

theorem findLoop_neg_limit (filter : Option (JsonVal → String → Bool)) (l : Int)
    (skip : Int) (m : List (String × JsonVal)) (skipped res : Int)
    (hl : l < 0) (hres : 0 ≤ res) :
    findLoop filter (some l) skip m skipped res = [] := by
  induction m generalizing skipped with
  | nil => simp [findLoop]
  | cons hd tl ih =>
    obtain ⟨id, doc⟩ := hd
    have hc : (jsTruthyLimit (some l) && decide ((some l).getD 0 ≤ res)) = true := by
      simp [jsTruthyLimit, show l ≠ 0 by omega, show l ≤ res by omega]
    simp only [findLoop, hc, if_true]
    split
    · exact ih (skipped + 1)
    · rfl

end Collection

/-! ## Claim C1 — duplicate insert is rejected without mutation -/

/-- Claim C1: For every store state whose in-memory map for `name` contains
the string-coerced ID, `insert` with that ID fails with the conflict
error and returns the state exactly unchanged — in particular the
collection map, the cache and the stored document for that ID are what
they were before the failed call (the duplicate check runs before any
mutation). -/
theorem insert_duplicate_conflict (s : DBState) (name : String) (id : DbId)
    (doc body : JsonVal) (m : List (String × JsonVal))
    (hm : jsMapGet s.collectionData name = some m)
    (hid : jsMapGet m id.toKey = some body) :
    (Collection.insert name id doc s).1 = .error .conflict ∧
    (Collection.insert name id doc s).2 = s ∧
    jsMapGet (Collection.insert name id doc s).2.collectionData name = some m ∧
    (Collection.insert name id doc s).2.cache = s.cache ∧
    jsMapGet m id.toKey = some body := by
  have hhas : jsMapHas m id.toKey = true := by simp [jsMapHas, hid]
  have key : Collection.insert name id doc s = (.error .conflict, s) := by
    simp only [Collection.insert, getOrLoad, hm, hhas, if_true]
  rw [key]
  exact ⟨rfl, rfl, hm, rfl, hid⟩

/-- Witness for C1 at a concrete store: re-inserting ID `"a"` into the
five-document collection fails with a conflict and changes nothing. -/
theorem insert_duplicate_conflict_witness :
    (Collection.insert "c" (.str "a") (exDoc 9) exState).1 = .error .conflict ∧
    (Collection.insert "c" (.str "a") (exDoc 9) exState).2 = exState ∧
    jsMapGet (Collection.insert "c" (.str "a") (exDoc 9) exState).2.collectionData "c"
      = some exColl ∧
    (Collection.insert "c" (.str "a") (exDoc 9) exState).2.cache = exState.cache ∧
    jsMapGet exColl (DbId.str "a").toKey = some (exDoc 0) :=
  insert_duplicate_conflict exState "c" (.str "a") (exDoc 9) (exDoc 0) exColl
    (by decide) (by decide)

/-! ## Claim C2 — skip counts raw entries, limit counts matches -/

/-- Claim C2 counterexample: The claim, which quantifies over non-negative
`limit`, asserts that `find` stops once `limit` passing entries have
been collected — at `limit = 0` that means an empty result.  The code
treats a falsy `limit` as "no limit": on the five-document collection,
`find({skip: 0, limit: 0, filter})` returns both matching documents
instead of the empty list. -/
theorem find_limit_zero_counterexample :
    (Collection.find "c" ⟨some pFilter, some 0, 0⟩ exState).1
      = [withId (.str "b") (exDoc 1), withId (.str "e") (exDoc 3)] ∧
    (Collection.find "c" ⟨some pFilter, some 0, 0⟩ exState).1 ≠ [] := by
  exact ⟨by decide, by decide⟩

/-- Claim C2, amended: For every collection, filter, non-negative skip and
*strictly positive* (or absent) limit, `find` iterates the in-memory map
in insertion order, unconditionally discards the first `skip` raw
entries regardless of the filter, then returns in order the entries that
pass the filter, stopping once `limit` passing entries have been
collected (`findSpec` states exactly this claim-side description; a
limit of 0 is falsy and is treated as "no limit", see C9).  In
particular, with 5 documents where only insertion positions 1 and 3 pass
the filter, `find({skip: 2, limit: 1, filter})` returns exactly the
document at position 3. -/
theorem find_skip_before_filter (s : DBState) (name : String)
    (m : List (String × JsonVal)) (filter : Option (JsonVal → String → Bool))
    (limit : Option Int) (skip : Int)
    (hm : jsMapGet s.collectionData name = some m) (hskip : 0 ≤ skip)
    (hlim : limit = none ∨ ∃ l, limit = some l ∧ 0 < l) :
    (Collection.find name ⟨filter, limit, skip⟩ s).1
      = Collection.findSpec filter limit skip m ∧
    (Collection.find "c" ⟨some pFilter, some 1, 2⟩ exState).1
      = [withId (.str "e") (exDoc 3)] := by
  constructor
  · simp only [Collection.find, hm]
    rw [Collection.findLoop_drop filter limit skip m 0 0 hskip]
    rcases hlim with h | ⟨l, hsome, hl⟩
    · subst h
      rw [Collection.findMatch_none]
      simp [Collection.findSpec]
    · subst hsome
      rw [Collection.findMatch_some filter l _ 0 (by omega) le_rfl]
      simp [Collection.findSpec]
  · decide

/-- Witness for C2 (amended): the general characterization instantiated
at the five-document example. -/
theorem find_skip_before_filter_witness :
    (Collection.find "c" ⟨some pFilter, some 1, 2⟩ exState).1
      = Collection.findSpec (some pFilter) (some 1) 2 exColl :=
  (find_skip_before_filter exState "c" exColl (some pFilter) (some 1) 2
    (by decide) (by decide) (Or.inr ⟨1, rfl, by decide⟩)).1

/-! ## Claim C9 — falsy limit means no limit -/

/-- Claim C9 counterexample: The claim's final clause says *only* a
strictly positive limit truncates the result; but a negative limit is
truthy and immediately satisfies `results.length >= limit`, so
`find({limit: -1})` returns the empty list — a truncation by a
non-positive limit. -/
theorem find_negative_limit_truncates :
    (Collection.find "c" ⟨none, some (-1), 0⟩ exState).1 = [] ∧
    (Collection.find "c" ⟨none, none, 0⟩ exState).1
      = exColl.map (fun kv => withId (.str kv.1) kv.2) ∧
    (Collection.find "c" ⟨none, none, 0⟩ exState).1 ≠ [] := by
  exact ⟨by decide, by decide, by decide⟩

/-- Claim C9, amended: For every collection state, filter and skip,
`find` with `limit` equal to 0 (falsy in JS) returns exactly what `find`
with no limit at all returns — all matching documents, not the empty
list.  A strictly positive limit truncates to at most that many matches
(see C2's characterization), while a *negative* limit — also truthy —
yields the empty list. -/
theorem find_limit_zero_is_no_limit (s : DBState) (name : String)
    (filter : Option (JsonVal → String → Bool)) (skip : Int) :
    (Collection.find name ⟨filter, some 0, skip⟩ s).1
      = (Collection.find name ⟨filter, none, skip⟩ s).1 ∧
    ∀ l : Int, l < 0 → (Collection.find name ⟨filter, some l, skip⟩ s).1 = [] := by
  constructor
  · rcases h : jsMapGet s.collectionData name with _ | m <;>
      simp only [Collection.find, h]
    exact Collection.findLoop_limit_zero filter skip m 0 0
  · intro l hl
    rcases h : jsMapGet s.collectionData name with _ | m <;>
      simp only [Collection.find, h]
    exact Collection.findLoop_neg_limit filter l skip m 0 0 hl le_rfl

/-- Witness for C9 (amended): a negative limit yields the empty list on
the example store. -/
theorem find_limit_zero_is_no_limit_witness :
    (Collection.find "c" ⟨some pFilter, some (-2), 1⟩ exState).1 = [] :=
  (find_limit_zero_is_no_limit exState "c" (some pFilter) 1).2 (-2) (by decide)

/-! ## Claim C3 — mutations refresh or evict the cache entry inline -/

/-- Characterization of a successful `delete`: it returns `true`, the
cache entry for the key is removed, and the in-memory collection map is
the one with the binding removed (with the whole collection dropped when
it became empty). -/
theorem delete_success_state (s : DBState) (name : String) (id : DbId)
    (m : List (String × JsonVal)) (hm : jsMapGet s.collectionData name = some m)
    (hhas : jsMapHas m id.toKey = true) :
    (Collection.delete name id s).1 = true ∧
    (Collection.delete name id s).2.cache
      = jsMapDelete s.cache (name ++ ":" ++ id.toKey) ∧
    ((Collection.delete name id s).2.collectionData
        = jsMapDelete (jsMapSet s.collectionData name (jsMapDelete m id.toKey)) name
      ∨ (Collection.delete name id s).2.collectionData
        = jsMapSet s.collectionData name (jsMapDelete m id.toKey)) := by
  refine ⟨by simp [Collection.delete, hm, hhas], ?_, ?_⟩
  · simp only [Collection.delete, hm, hhas, if_true]
    rw [saveCollectionIndex_cache]
    split
    · split <;> simp [fsUnlink, saveCollection_cache]
    · rw [saveCollection_cache]
  · simp only [Collection.delete, hm, hhas, if_true]
    rw [saveCollectionIndex_collectionData]
    split
    · left
      split <;> simp [fsUnlink, saveCollection_collectionData]
    · right
      rw [saveCollection_collectionData]

/-- Claim C3: For every well-formed store state: immediately after a
successful `update(id, newBody)`, `findById(id)` returns `newBody` — the
cache entry for the key was refreshed inline, so the hit cannot serve a
stale body — and immediately after a successful `delete(id)`,
`findById(id)` returns the not-found result `null`, the cache entry
having been evicted inline. -/
theorem mutation_refreshes_cache (s : DBState) (name : String) (id : DbId)
    (newBody : JsonVal) (hwf : WFState s) :
    (∀ r s', Collection.update name id newBody s = (.ok r, s') →
      (Collection.findById name id s').1 = some newBody) ∧
    (∀ s', Collection.delete name id s = (true, s') →
      (Collection.findById name id s').1 = none) := by
  obtain ⟨hcd, hinner, hcache, hcf, hdisk⟩ := hwf
  constructor
  · intro r s' h
    have hs' : s' = (Collection.update name id newBody s).2 := (congrArg Prod.snd h).symm
    rcases hg : getOrLoad name s with e | p
    · have h2 : (Collection.update name id newBody s).1 = .error e := by
        simp [Collection.update, hg]
      have h1 := congrArg Prod.fst h
      rw [h2] at h1
      exact absurd h1 (by simp)
    · obtain ⟨m, s1⟩ := p
      have hcget : jsMapGet (Collection.update name id newBody s).2.cache
          (name ++ ":" ++ id.toKey) = some newBody := by
        simp only [Collection.update, hg]
        rw [saveCollectionIndex_cache, saveCollection_cache]
        exact addToCache_get_self _ _ _
      rw [hs']
      simp only [Collection.findById, hcget]
  · intro s' h
    have hs' : s' = (Collection.delete name id s).2 := (congrArg Prod.snd h).symm
    have h1 : (Collection.delete name id s).1 = true := by rw [h]
    rcases hmo : jsMapGet s.collectionData name with _ | m
    · have : (Collection.delete name id s).1 = false := by
        simp [Collection.delete, hmo]
      rw [this] at h1
      exact Bool.noConfusion h1
    · by_cases hhas : jsMapHas m id.toKey
      · obtain ⟨_, hcacheEq, hdata⟩ := delete_success_state s name id m hmo hhas
        have hcget : jsMapGet (Collection.delete name id s).2.cache
            (name ++ ":" ++ id.toKey) = none := by
          rw [hcacheEq]
          exact jsMapGet_delete_self _ _ hcache
        rw [hs']
        rcases hdata with hd | hd
        · have hnone : jsMapGet (Collection.delete name id s).2.collectionData name
              = none := by
            rw [hd]
            exact jsMapGet_delete_self _ _ (nodup_mapKeys_set _ _ _ hcd)
          simp only [Collection.findById, hcget, hnone]
        · have hsome : jsMapGet (Collection.delete name id s).2.collectionData name
              = some (jsMapDelete m id.toKey) := by
            rw [hd]
            exact jsMapGet_set_self _ _ _
          have hinnerNone : jsMapGet (jsMapDelete m id.toKey) id.toKey = none :=
            jsMapGet_delete_self _ _ (hinner ⟨name, m⟩ (mem_of_jsMapGet_eq_some _ _ _ hmo))
          simp only [Collection.findById, hcget, hsome, hinnerNone]
      · have : (Collection.delete name id s).1 = false := by
          simp [Collection.delete, hmo, hhas]
        rw [this] at h1
        exact Bool.noConfusion h1

/-- Witness for C3: on the example store, update then `findById` returns
the new body, and delete then `findById` returns `null`. -/
theorem mutation_refreshes_cache_witness :
    (Collection.findById "c" (.str "a")
      (Collection.update "c" (.str "a") (exDoc 8) exState).2).1 = some (exDoc 8) ∧
    (Collection.findById "c" (.str "b")
      (Collection.delete "c" (.str "b") exState).2).1 = none :=
  ⟨(mutation_refreshes_cache exState "c" (.str "a") (exDoc 8) (by decide)).1
      (exDoc 8) (Collection.update "c" (.str "a") (exDoc 8) exState).2 (by decide),
   (mutation_refreshes_cache exState "c" (.str "b") (exDoc 8) (by decide)).2
      (Collection.delete "c" (.str "b") exState).2 (by decide)⟩

/-! ## Claim C4 — deleting the last document removes the collection -/

/-- Claim C4: For every well-formed store whose collection `name` holds
exactly one document, deleting that document returns `true`, and
afterwards the collection is gone from the in-memory store and from the
collection-name listing, its file-path registration is gone, its backing
file is deleted from disk, and the freshly rewritten manifest no longer
lists it — a collection with zero documents is not a persisted state.
(The hypothesis `hpath` excludes the degenerate collection name
`".index"`, whose data file would coincide with the manifest file.) -/
theorem delete_last_document_cleanup (s : DBState) (name : String) (id : DbId)
    (doc : JsonVal) (hwf : WFState s)
    (hm : jsMapGet s.collectionData name = some [(id.toKey, doc)])
    (hpath : filePathOf s name ≠ indexFilePath s) :
    (Collection.delete name id s).1 = true ∧
    jsMapGet (Collection.delete name id s).2.collectionData name = none ∧
    name ∉ listCollectionNames (Collection.delete name id s).2 ∧
    jsMapGet (Collection.delete name id s).2.collectionFiles name = none ∧
    jsMapGet (Collection.delete name id s).2.disk (filePathOf s name) = none ∧
    ∃ names, jsMapGet (Collection.delete name id s).2.disk (indexFilePath s)
        = some (manifestJson s.now names) ∧ name ∉ names := by
  obtain ⟨hcd, hinner, hcache, hcf, hdisk⟩ := hwf
  have hhas : jsMapHas [(id.toKey, doc)] id.toKey = true := by simp [jsMapHas, jsMapGet]
  have hdel : jsMapDelete [(id.toKey, doc)] id.toKey = ([] : List (String × JsonVal)) := by
    simp [jsMapDelete]
  have hstate : Collection.delete name id s
      = (true, saveCollectionIndex
          { folderPath := s.folderPath, maxMemoryItems := s.maxMemoryItems, now := s.now,
            collectionData := jsMapDelete (jsMapSet s.collectionData name []) name,
            collectionFiles := jsMapDelete (jsMapSet s.collectionFiles name (filePathOf s name)) name,
            cache := jsMapDelete s.cache (name ++ ":" ++ id.toKey),
            disk := jsMapDelete (jsMapSet s.disk (filePathOf s name) (collJson []))
              (filePathOf s name) }) := by
    simp only [Collection.delete, hm, hhas, if_true, hdel]
    unfold saveCollection
    simp only [jsMapGet_set_self, List.length_nil, if_true, fsUnlink]
    rfl
  rw [hstate]
  have hcdnone : jsMapGet (jsMapDelete (jsMapSet s.collectionData name
      ([] : List (String × JsonVal))) name) name = none :=
    jsMapGet_delete_self _ _ (nodup_mapKeys_set _ _ _ hcd)
  have hcfnone : jsMapGet (jsMapDelete (jsMapSet s.collectionFiles name
      (filePathOf s name)) name) name = none :=
    jsMapGet_delete_self _ _ (nodup_mapKeys_set _ _ _ hcf)
  have hdisknone : jsMapGet (jsMapDelete (jsMapSet s.disk (filePathOf s name)
      (collJson [])) (filePathOf s name)) (filePathOf s name) = none :=
    jsMapGet_delete_self _ _ (nodup_mapKeys_set _ _ _ hdisk)
  refine ⟨rfl, ?_, ?_, ?_, ?_, ?_⟩
  · rw [saveCollectionIndex_collectionData]
    exact hcdnone
  · have := (jsMapGet_eq_none_iff _ name).mp hcdnone
    rw [listCollectionNames, saveCollectionIndex_collectionData]
    exact this
  · rw [saveCollectionIndex_collectionFiles]
    exact hcfnone
  · rw [saveCollectionIndex_disk_get]
    rw [if_neg (fun h => hpath h.symm)]
    exact hdisknone
  · refine ⟨mapKeys (jsMapDelete (jsMapSet s.collectionFiles name (filePathOf s name)) name),
      ?_, ?_⟩
    · rw [saveCollectionIndex_disk_get]
      split
      · rfl
      · next h => exact absurd rfl h
    · exact (jsMapGet_eq_none_iff _ name).mp hcfnone

/-- Witness for C4 at the one-document store `oneState`. -/
theorem delete_last_document_cleanup_witness :
    (Collection.delete "users" (.str "1") oneState).1 = true ∧
    jsMapGet (Collection.delete "users" (.str "1") oneState).2.collectionData "users" = none ∧
    "users" ∉ listCollectionNames (Collection.delete "users" (.str "1") oneState).2 ∧
    jsMapGet (Collection.delete "users" (.str "1") oneState).2.collectionFiles "users" = none ∧
    jsMapGet (Collection.delete "users" (.str "1") oneState).2.disk
      (filePathOf oneState "users") = none ∧
    ∃ names, jsMapGet (Collection.delete "users" (.str "1") oneState).2.disk
        (indexFilePath oneState) = some (manifestJson oneState.now names) ∧
      "users" ∉ names :=
  delete_last_document_cleanup oneState "users" (.str "1") (exDoc 0)
    (by decide) (by decide) (by decide)

/-! ## Claim C7 — which operations attach the ID to returned documents -/

/-- Every element `find`'s loop emits has the `{id, ...body}` shape. -/
theorem findLoop_mem_shape (filter : Option (JsonVal → String → Bool))
    (limit : Option Int) (skip : Int) (m : List (String × JsonVal))
    (skipped res : Int) (v : JsonVal)
    (hv : v ∈ Collection.findLoop filter limit skip m skipped res) :
    ∃ k d, v = withId (.str k) d := by
  induction m generalizing skipped res with
  | nil => simp [Collection.findLoop] at hv
  | cons hd tl ih =>
    obtain ⟨id, doc⟩ := hd
    simp only [Collection.findLoop] at hv
    split at hv
    · exact ih _ _ hv
    · split at hv
      · simp at hv
      · split at hv
        · rcases List.mem_cons.mp hv with h | h
          · exact ⟨id, doc, h⟩
          · exact ih _ _ h
        · exact ih _ _ hv

/-- Claim C7 counterexample: `update` returns the body exactly as passed —
no `id` property is attached — and a cache-hitting `findById` likewise
returns the stored body, not `{id, ...body}`: on the one-document store,
both observably differ from the `{id, ...body}` shape the claim
requires of every document-returning operation. -/
theorem update_return_lacks_id :
    (Collection.update "users" (.str "1") (.obj [("a", .num 2)]) oneState).1
      = .ok (.obj [("a", .num 2)]) ∧
    (Except.ok (.obj [("a", .num 2)]) : Except DbError JsonVal)
      ≠ .ok (withId (.str "1") (.obj [("a", .num 2)])) ∧
    (Collection.findById "users" (.str "1") oneState).1 = some (exDoc 0) ∧
    some (exDoc 0) ≠ some (withId (.str "1") (exDoc 0)) := by
  exact ⟨by decide, by decide, by decide, by decide⟩

/-- Claim C7, amended: `insert`, `find`, `findOne` and `stream` return
documents with the ID attached in the shape `{id, ...body}`; `update`
returns the body exactly as passed, and `findById` returns the stored
(or cached) body without attaching the ID. -/
theorem public_return_shapes (s : DBState) (name : String) (id : DbId) (doc : JsonVal)
    (m : List (String × JsonVal)) (hm : jsMapGet s.collectionData name = some m) :
    (∀ r s', Collection.insert name id doc s = (.ok r, s') → r = withId id doc) ∧
    (∀ opts v, v ∈ (Collection.find name opts s).1 → ∃ k d, v = withId (.str k) d) ∧
    (∀ f v, (Collection.findOne name f s).1 = some v → ∃ k d, v = withId (.str k) d) ∧
    (Collection.stream name s).1 = m.map (fun kv => withId (.str kv.1) kv.2) ∧
    (∀ r s', Collection.update name id doc s = (.ok r, s') → r = doc) ∧
    (∀ d, jsMapGet s.cache (name ++ ":" ++ id.toKey) = none →
      jsMapGet m id.toKey = some d → jsFalsy d = false →
      (Collection.findById name id s).1 = some d) := by
  have hg : getOrLoad name s = .ok (m, s) := by simp [getOrLoad, hm]
  refine ⟨?_, ?_, ?_, ?_, ?_, ?_⟩
  · intro r s' h
    simp only [Collection.insert, hg] at h
    split at h
    · exact absurd (congrArg Prod.fst h) (by simp)
    · injection h with h1 h2
      exact (Except.ok.inj h1).symm
  · intro opts v hv
    simp only [Collection.find, hm] at hv
    exact findLoop_mem_shape _ _ _ _ _ _ _ hv
  · intro f v h
    simp only [Collection.findOne] at h
    rcases hh : (Collection.find name ⟨f, some 1, 0⟩ s).1 with _ | ⟨v0, rest⟩
    · rw [hh] at h
      simp at h
    · rw [hh] at h
      simp only [List.head?_cons, Option.some_bind] at h
      split at h
      · exact absurd h (by simp)
      · obtain rfl : v0 = v := Option.some.inj h
        have hv0 : v0 ∈ (Collection.find name ⟨f, some 1, 0⟩ s).1 := by
          rw [hh]; exact List.mem_cons_self _ _
        simp only [Collection.find, hm] at hv0
        exact findLoop_mem_shape _ _ _ _ _ _ _ hv0
  · simp [Collection.stream, hm]
  · intro r s' h
    simp only [Collection.update, hg] at h
    injection h with h1 h2
    exact (Except.ok.inj h1).symm
  · intro d hcm hgm hfalsy
    simp only [Collection.findById, hcm, hgm, hm, hfalsy, Bool.false_eq_true, if_false]

/-- Witness for C7 (amended): `stream` attaches IDs; a cache-missing
in-memory `findById` returns the raw stored body. -/
theorem public_return_shapes_witness :
    (Collection.stream "c" exState).1
      = exColl.map (fun kv => withId (.str kv.1) kv.2) ∧
    (Collection.findById "c" (.str "b") exState).1 = some (exDoc 1) :=
  ⟨(public_return_shapes exState "c" (.str "b") (exDoc 9) exColl (by decide)).2.2.2.1,
   (public_return_shapes exState "c" (.str "b") (exDoc 9) exColl (by decide)).2.2.2.2.2
      (exDoc 1) (by decide) (by decide) (by decide)⟩

/-! ## Claim C10 — read operations do not disturb the store -/

/-- Claim C10: After initialization, `find`, `count` and `stream` return
the state exactly as given (collection maps, cache and disk included),
and `findById` modifies at most the cache — its result state has the
same collection data, file registrations and disk, and its cache is
either untouched or the result of `_addToCache` for the looked-up key. -/
theorem read_ops_frame (s : DBState) (name : String) (opts : Collection.FindOptions)
    (arg : Collection.CountArg) (id : DbId) :
    (Collection.find name opts s).2 = s ∧
    (Collection.count name arg s).2 = s ∧
    (Collection.stream name s).2 = s ∧
    (Collection.findById name id s).2.collectionData = s.collectionData ∧
    (Collection.findById name id s).2.collectionFiles = s.collectionFiles ∧
    (Collection.findById name id s).2.disk = s.disk ∧
    ((Collection.findById name id s).2.cache = s.cache ∨
      ∃ d, (Collection.findById name id s).2.cache
        = (addToCache s (name ++ ":" ++ id.toKey) d).cache) := by
  have hfb : (Collection.findById name id s).2 = s ∨
      ∃ d, (Collection.findById name id s).2
        = addToCache s (name ++ ":" ++ id.toKey) d := by
    rcases hc : jsMapGet s.cache (name ++ ":" ++ id.toKey) with _ | v
    · rcases hmo : jsMapGet s.collectionData name with _ | m
      · left; simp [Collection.findById, hc, hmo]
      · rcases hgo : jsMapGet m id.toKey with _ | d
        · left; simp [Collection.findById, hc, hmo, hgo]
        · by_cases hf : jsFalsy d
          · left; simp [Collection.findById, hc, hmo, hgo, hf]
          · right
            exact ⟨d, by simp [Collection.findById, hc, hmo, hgo, hf]⟩
    · left; simp [Collection.findById, hc]
  refine ⟨?_, ?_, ?_, ?_, ?_, ?_, ?_⟩
  · rcases h : jsMapGet s.collectionData name with _ | m <;>
      simp [Collection.find, h]
  · rcases h : jsMapGet s.collectionData name with _ | m
    · simp [Collection.count, h]
    · cases arg with
      | noArg => simp [Collection.count, h]
      | fn f => simp [Collection.count, h]
      | opts f => cases f <;> simp [Collection.count, h]
  · rcases h : jsMapGet s.collectionData name with _ | m <;>
      simp [Collection.stream, h]
  · rcases hfb with h | ⟨d, h⟩
    · rw [h]
    · rw [h, addToCache_collectionData]
  · rcases hfb with h | ⟨d, h⟩
    · rw [h]
    · rw [h, addToCache_collectionFiles]
  · rcases hfb with h | ⟨d, h⟩
    · rw [h]
    · rw [h, addToCache_disk]
  · rcases hfb with h | ⟨d, h⟩
    · left; rw [h]
    · right; exact ⟨d, by rw [h]⟩

/-! ## Claim C6 — failed restore rolls the in-memory maps back -/

/-- Claim C6: Every `restore(path)` call that fails — unreadable file, bad
JSON, or an injected persistence failure mid-restore — returns the error
with the two in-memory maps equal to their values from before the call:
the `catch` swaps back the shallow copies captured on entry.  (Files
already written during the failed restore, and the cleared cache, are
not rolled back; the theorem constrains only the two maps, as the claim
does.) -/
theorem restore_failure_rollback (s : DBState) (path : String)
    (writeFails : String → Bool) (e : DbError) (s' : DBState)
    (h : restore path writeFails s = (.error e, s')) :
    s'.collectionData = s.collectionData ∧ s'.collectionFiles = s.collectionFiles := by
  simp only [restore] at h
  split at h
  · exact absurd (congrArg Prod.fst h) (by simp)
  · injection h with h1 h2
    exact ⟨by rw [← h2], by rw [← h2]⟩

/-- Witness for C6: restoring from a missing path fails and leaves both
maps as they were. -/
theorem restore_failure_rollback_witness :
    (restore "missing.json" (fun _ => false) exState).2.collectionData
        = exState.collectionData ∧
    (restore "missing.json" (fun _ => false) exState).2.collectionFiles
        = exState.collectionFiles :=
  restore_failure_rollback exState "missing.json" (fun _ => false) .ioError
    (restore "missing.json" (fun _ => false) exState).2 (by decide)

/-! ## Claim C5 — backup / clear / restore round trip -/

theorem foldl_unlink_folderPath (l : List (String × String)) (s0 : DBState) :
    (l.foldl (fun acc kv => fsUnlink acc kv.2) s0).folderPath = s0.folderPath := by
  induction l generalizing s0 with
  | nil => rfl
  | cons hd tl ih => rw [List.foldl_cons, ih]; rfl

theorem foldl_unlink_disk_get (l : List (String × String)) (s0 : DBState) (p : String)
    (hp : ∀ kv ∈ l, p ≠ kv.2) :
    jsMapGet (l.foldl (fun acc kv => fsUnlink acc kv.2) s0).disk p
      = jsMapGet s0.disk p := by
  induction l generalizing s0 with
  | nil => rfl
  | cons hd tl ih =>
    rw [List.foldl_cons, ih _ (fun kv hkv => hp kv (List.mem_cons_of_mem _ hkv))]
    exact jsMapGet_delete_ne _ _ _ (Ne.symm (hp hd (List.mem_cons_self _ _)))

theorem clear_disk (s : DBState) :
    (clear s).disk
      = jsMapDelete (s.collectionFiles.foldl (fun acc kv => fsUnlink acc kv.2) s).disk
          (indexFilePath (s.collectionFiles.foldl (fun acc kv => fsUnlink acc kv.2) s)) :=
  rfl

theorem clear_collectionData (s : DBState) : (clear s).collectionData = [] := rfl

theorem clear_collectionFiles (s : DBState) : (clear s).collectionFiles = [] := rfl

theorem clear_cache (s : DBState) : (clear s).cache = [] := rfl

/-- With no write failures, the restore loop succeeds and rebuilds the
collection-data map by `Map.set`ting each backup entry in order. -/
theorem restoreCollections_no_fail (entries : List (String × JsonVal)) (s0 : DBState) :
    ∃ s1, restoreCollections (fun _ => false) entries s0 = .ok s1 ∧
      s1.collectionData
        = entries.foldl (fun cd e => jsMapSet cd e.1 (jsObjEntries e.2))
            s0.collectionData := by
  induction entries generalizing s0 with
  | nil => exact ⟨s0, rfl, rfl⟩
  | cons hd tl ih =>
    obtain ⟨name, colVal⟩ := hd
    obtain ⟨s1, h1, h2⟩ := ih
      { fsWrite { s0 with collectionData := jsMapSet s0.collectionData name (jsObjEntries colVal) }
          (filePathOf { s0 with collectionData := jsMapSet s0.collectionData name (jsObjEntries colVal) } name)
          (collJson (jsObjEntries colVal)) with
        collectionFiles := jsMapSet s0.collectionFiles name
          (filePathOf { s0 with collectionData := jsMapSet s0.collectionData name (jsObjEntries colVal) } name) }
    refine ⟨s1, ?_, ?_⟩
    · simp only [restoreCollections, Bool.false_eq_true, if_false]
      exact h1
    · rw [List.foldl_cons]
      exact h2

/-- The restore loop applied to `Map.set` entries with pairwise-distinct
keys, none of which collide with the accumulator, appends them in order. -/
theorem foldl_jsMapSet_entries (cols : List (String × List (String × JsonVal)))
    (acc : List (String × List (String × JsonVal)))
    (hnd : (mapKeys cols).Nodup) (hdisj : ∀ k ∈ mapKeys cols, k ∉ mapKeys acc) :
    (cols.map (fun c => (c.1, JsonVal.obj c.2))).foldl
        (fun cd e => jsMapSet cd e.1 (jsObjEntries e.2)) acc = acc ++ cols := by
  induction cols generalizing acc with
  | nil => simp
  | cons hd tl ih =>
    obtain ⟨name, mcol⟩ := hd
    simp only [mapKeys, List.map_cons, List.nodup_cons] at hnd
    simp only [List.map_cons, List.foldl_cons]
    have hnot : name ∉ mapKeys acc :=
      hdisj name (by simp [mapKeys])
    have hset : jsMapSet acc name (jsObjEntries (JsonVal.obj mcol)) = acc ++ [(name, mcol)] :=
      jsMapSet_eq_append_of_not_mem acc name mcol hnot
    rw [hset, ih (acc ++ [(name, mcol)]) hnd.2]
    · rw [List.append_assoc]
      rfl
    · intro k hk
      have h2 : k ≠ name := by
        intro hkn
        subst hkn
        exact hnd.1 hk
      have h1 : k ∉ mapKeys acc := hdisj k (List.mem_cons_of_mem _ hk)
      simp only [mapKeys, List.map_append, List.map_cons, List.map_nil, List.mem_append,
        List.mem_singleton]
      push_neg
      exact ⟨h1, h2⟩

/-- Claim C5 counterexample: The claim quantifies over every `path`; when
`path` is an existing collection's own file path, `clear` unlinks the
just-written backup (it is listed in `collectionFiles`), so the restore
fails and the store stays empty instead of reproducing the pre-clear
documents. -/
theorem backup_restore_path_collision :
    (restore "d/users.json" (fun _ => false)
        (clear (backup "d/users.json" oneState))).1 = .error .ioError ∧
    (restore "d/users.json" (fun _ => false)
        (clear (backup "d/users.json" oneState))).2.collectionData = [] ∧
    jsMapGet oneState.collectionData "users" ≠ none := by
  exact ⟨by decide, by decide, by decide⟩

/-- Claim C5, amended: For every store state (with distinct collection
names, as JS `Map` keys are) and every backup path that is neither one
of the store's collection file paths nor the manifest path, running
`backup(path)`, then `clear()`, then `restore(path)` succeeds and yields
an in-memory state whose collection-data map — and hence every
collection's ID-to-body mapping — equals the pre-clear one exactly. -/
theorem backup_clear_restore_roundtrip (s : DBState) (path : String)
    (hnd : (mapKeys s.collectionData).Nodup)
    (hp1 : ∀ kv ∈ s.collectionFiles, path ≠ kv.2)
    (hp2 : path ≠ indexFilePath s) :
    (restore path (fun _ => false) (clear (backup path s))).1 = .ok () ∧
    (restore path (fun _ => false) (clear (backup path s))).2.collectionData
      = s.collectionData ∧
    ∀ name, jsMapGet (restore path (fun _ => false)
        (clear (backup path s))).2.collectionData name
      = jsMapGet s.collectionData name := by
  have hbcf : (backup path s).collectionFiles = s.collectionFiles := rfl
  have hbd : (backup path s).disk
      = jsMapSet s.disk path (backupJson s.now s.collectionData) := rfl
  have hidx : indexFilePath (s.collectionFiles.foldl
      (fun acc kv => fsUnlink acc kv.2) (backup path s)) = indexFilePath s := by
    unfold indexFilePath
    rw [foldl_unlink_folderPath]
    rfl
  have hget : jsMapGet (clear (backup path s)).disk path
      = some (backupJson s.now s.collectionData) := by
    rw [clear_disk, hbcf, jsMapGet_delete_ne _ _ _ (by rw [hidx]; exact Ne.symm hp2),
      foldl_unlink_disk_get _ _ _ hp1, hbd]
    exact jsMapGet_set_self _ _ _
  obtain ⟨s1, hok, hcd⟩ := restoreCollections_no_fail
    ((s.collectionData.map (fun c => (c.1, JsonVal.obj c.2))))
    { clear (backup path s) with collectionData := [], collectionFiles := [], cache := [] }
  have hcd' : s1.collectionData = s.collectionData := by
    rw [hcd]
    exact foldl_jsMapSet_entries s.collectionData [] hnd (by simp [mapKeys])
  have e1 : ∀ (n : Int) (cols : List (String × List (String × JsonVal))),
      (jsTruthyField (.obj [("version", .num 2), ("timestamp", .num n),
          ("folderBased", .bool true),
          ("collections", .obj (cols.map (fun c => (c.1, JsonVal.obj c.2))))]) "folderBased"
        && jsTruthyField (.obj [("version", .num 2), ("timestamp", .num n),
          ("folderBased", .bool true),
          ("collections", .obj (cols.map (fun c => (c.1, JsonVal.obj c.2))))]) "collections")
        = true :=
    fun n cols => rfl
  have e2 : ∀ (n : Int) (cols : List (String × List (String × JsonVal))),
      jsObjEntries ((jsGetField (.obj [("version", .num 2), ("timestamp", .num n),
          ("folderBased", .bool true),
          ("collections", .obj (cols.map (fun c => (c.1, JsonVal.obj c.2))))])
          "collections").getD .null)
        = cols.map (fun c => (c.1, JsonVal.obj c.2)) :=
    fun n cols => rfl
  have hres : restore path (fun _ => false) (clear (backup path s))
      = (.ok (), saveCollectionIndex s1) := by
    simp only [restore, hget, backupJson, e1, e2, eq_self_iff_true, if_true, hok,
      Bool.false_eq_true, if_false]
  refine ⟨?_, ?_, ?_⟩
  · rw [hres]
  · rw [hres, saveCollectionIndex_collectionData, hcd']
  · intro name
    rw [hres, saveCollectionIndex_collectionData, hcd']

/-- Witness for C5 (amended) at the example store with a fresh backup
path. -/
theorem backup_clear_restore_roundtrip_witness :
    (restore "bk.json" (fun _ => false) (clear (backup "bk.json" exState))).1 = .ok () ∧
    (restore "bk.json" (fun _ => false) (clear (backup "bk.json" exState))).2.collectionData
      = exState.collectionData ∧
    ∀ name, jsMapGet (restore "bk.json" (fun _ => false)
        (clear (backup "bk.json" exState))).2.collectionData name
      = jsMapGet exState.collectionData name :=
  backup_clear_restore_roundtrip exState "bk.json" (by decide) (by decide) (by decide)

/-! ## Claim C8 — the write mutex is exclusive and FIFO -/

namespace WriteMutex

theorem holders_singleton {l : List Nat} {i : Nat} (h1 : l.length ≤ 1) (hi : i ∈ l) :
    l = [i] := by
  cases l with
  | nil => cases hi
  | cons a t =>
    cases t with
    | nil =>
      have := List.mem_singleton.mp hi
      rw [this]
    | cons b t2 => simp at h1

/-- Every enabled step preserves the mutex invariant. -/
theorem step_inv (s s' : MutexState) (e : MEvent) (g : Option Nat)
    (hInv : Inv s) (h : step s e = some (s', g)) : Inv s' := by
  obtain ⟨h1, h2, h3⟩ := hInv
  cases e with
  | acquire i =>
    simp only [step] at h
    split at h
    · next hl =>
      obtain ⟨hs, hg⟩ := Prod.mk.inj (Option.some.inj h)
      subst hs
      refine ⟨h1, ?_, ?_⟩
      · intro hfalse
        exact absurd hfalse (by simp [hl])
      · intro hempty
        exact absurd (h3 hempty) (by simp [hl])
    · next hl =>
      obtain ⟨hs, hg⟩ := Prod.mk.inj (Option.some.inj h)
      subst hs
      have hlf : s.locked = false := by
        cases hb : s.locked
        · rfl
        · exact absurd hb hl
      obtain ⟨hh, hq⟩ := h2 hlf
      refine ⟨?_, ?_, ?_⟩
      · simp [hh]
      · intro hfalse
        simp at hfalse
      · intro hempty
        simp [hh] at hempty
  | release i =>
    simp only [step] at h
    split at h
    · next hi =>
      have hsingle : s.holders = [i] := holders_singleton h1 hi
      split at h
      · next j rest hq =>
        obtain ⟨hs, hg⟩ := Prod.mk.inj (Option.some.inj h)
        subst hs
        refine ⟨?_, ?_, ?_⟩
        · simp [hsingle]
        · intro hfalse
          simp at hfalse
        · intro hempty
          simp [hsingle] at hempty
      · next hq =>
        obtain ⟨hs, hg⟩ := Prod.mk.inj (Option.some.inj h)
        subst hs
        refine ⟨?_, ?_, ?_⟩
        · simp [hsingle]
        · intro _
          exact ⟨by simp [hsingle], rfl⟩
        · intro _
          rfl
    · exact absurd h (by simp)

/-- The invariant holds in every state reachable from the fresh mutex. -/
theorem runTrace_inv (tr : List MEvent) (s s' : MutexState)
    (hInv : Inv s) (h : runTrace s tr = some s') : Inv s' := by
  induction tr generalizing s with
  | nil =>
    simp only [runTrace] at h
    exact (Option.some.inj h) ▸ hInv
  | cons e tl ih =>
    simp only [runTrace] at h
    rcases hstep : step s e with _ | ⟨s1, g⟩
    · rw [hstep] at h
      exact absurd h (by simp)
    · rw [hstep] at h
      exact ih s1 (step_inv s s1 e g hInv hstep) h

/-- Claim C8: Along every trace of `acquire(fn)` events from a fresh
`WriteMutex`, at most one caller's `fn` is executing at any time (the
reachable-state holder list never has two elements); a `release` in a
state with a non-empty queue hands the lock to exactly the *head* of the
queue (the earliest arrival) and pops it; and an `acquire` while locked
appends the caller to the *back* of the queue — so queued callers are
granted the lock in arrival order, each release waking exactly the head. -/
theorem writeMutex_exclusive_fifo :
    (∀ tr s', runTrace initState tr = some s' → s'.holders.length ≤ 1) ∧
    (∀ s i j rest, Inv s → i ∈ s.holders → s.queue = j :: rest →
      step s (.release i)
        = some ({ locked := true, queue := rest, holders := [j] }, some j)) ∧
    (∀ s i, s.locked = true →
      step s (.acquire i) = some ({ s with queue := s.queue ++ [i] }, none)) := by
  refine ⟨?_, ?_, ?_⟩
  · intro tr s' h
    exact (runTrace_inv tr initState s' (by simp [initState, Inv]) h).1
  · intro s i j rest hInv hi hq
    have hs : s.holders = [i] := holders_singleton hInv.1 hi
    simp only [step]
    rw [if_pos hi, hq, hs]
    simp [List.erase_cons_head]
  · intro s i hl
    simp only [step]
    rw [if_pos hl]

/-- Witness for C8: a concrete trace (three acquires, one release) stays
within the invariant, and a concrete release grants the queue's head. -/
theorem writeMutex_exclusive_fifo_witness :
    ((⟨true, [2], [1]⟩ : MutexState).holders.length ≤ 1) ∧
    step ⟨true, [7, 9], [4]⟩ (.release 4)
      = some ({ locked := true, queue := [9], holders := [7] }, some 7) ∧
    step ⟨true, [7, 9], [4]⟩ (.acquire 5)
      = some (⟨true, [7, 9, 5], [4]⟩, none) :=
  ⟨writeMutex_exclusive_fifo.1 [.acquire 0, .acquire 1, .acquire 2, .release 0]
      ⟨true, [2], [1]⟩ (by decide),
   writeMutex_exclusive_fifo.2.1 ⟨true, [7, 9], [4]⟩ 4 7 [9]
      (by decide) (by decide) (by decide),
   writeMutex_exclusive_fifo.2.2 ⟨true, [7, 9], [4]⟩ 5 (by decide)⟩

end WriteMutex

end JSLiteDB
